import Mathlib

/-!
Verification of the data-aggregation core of `reporting.py` (Rail ISAC
reporting script).  The Python functions are shallowly embedded:

* JSON / Python values are the inductive `PyVal`; calendar dates are `Int`
  (days since 1970-01-01, UTC); timestamps are `Int` epoch seconds.
* Fallible Python code (attribute errors on `.get`, `int(...)` conversion
  failures, `strptime` parse errors) is modelled in `Except PyErr`; a
  `try/except` clause becomes a `match` on the `Except` value that catches
  exactly the exception classes named in the source.
* Dict-shaped counters (`collections.Counter`) are total functions
  `Int → Nat`; `counter.get(day, 0)` is plain application.

Each definition carries a comment pointing at the source lines it embeds.
-/

set_option maxRecDepth 4000

/-- Python exception classes that the embedded code can raise or catch. -/
inductive PyErr where
  | attributeError
  | typeError
  | valueError
deriving Repr, DecidableEq

/-- A JSON-ish Python value as handled by `reporting.py`: `None`, booleans,
integers, strings, lists and string-keyed dicts.  (The script only ever
consumes integral numerics — epoch timestamps — so numbers are `Int`.) -/
inductive PyVal where
  | none : PyVal
  | bool : Bool → PyVal
  | int : Int → PyVal
  | str : String → PyVal
  | list : List PyVal → PyVal
  | dict : List (String × PyVal) → PyVal

/-- First-match association-list lookup, the model of Python dict indexing
(dict keys are unique). -/
def alook (k : String) : List (String × α) → Option α
  | [] => Option.none
  | kv :: rest => if kv.1 = k then some kv.2 else alook k rest

/-- Model of `v.get(k, dflt)`: only dicts have `.get`; any other receiver
raises `AttributeError`. -/
def PyVal.getd (v : PyVal) (k : String) (dflt : PyVal) : Except PyErr PyVal :=
  match v with
  | .dict kvs => .ok ((alook k kvs).getD dflt)
  | _ => .error .attributeError

/-- Model of `v.get(k)` (default `None`). -/
def PyVal.getk (v : PyVal) (k : String) : Except PyErr PyVal :=
  v.getd k PyVal.none

/-- Python truthiness of a value, as used in `if date_str:`, `... or []`. -/
def PyVal.truthy : PyVal → Bool
  | .none => false
  | .bool b => b
  | .int n => n != 0
  | .str s => s != ""
  | .list l => !l.isEmpty
  | .dict kvs => !kvs.isEmpty

/-- Model of `for x in v`: lists iterate their elements, strings their
characters, dicts their keys; other values raise `TypeError`. -/
def pyIter : PyVal → Except PyErr (List PyVal)
  | .list l => .ok l
  | .str s => .ok (s.data.map (fun c => PyVal.str (String.singleton c)))
  | .dict kvs => .ok (kvs.map (fun kv => PyVal.str kv.1))
  | _ => .error .typeError

/-- Split a character list at every dash, keeping empty groups (the
behaviour of `s.split("-")` / `str.splitOn "-"` on the characters of the string). -/
def splitDashes : List Char → List (List Char)
  | [] => [[]]
  | c :: rest =>
    match splitDashes rest with
    | [] => if c = '-' then [[], [c]] else [[c]]
    | g :: gs => if c = '-' then [] :: g :: gs else (c :: g) :: gs

/-- Parse a non-empty all-digit character group as a natural number. -/
def digitsToNat (cs : List Char) : Option Nat :=
  if cs ≠ [] ∧ cs.all (fun c => c.isDigit) then
    some (cs.foldl (fun n c => n * 10 + (c.toNat - 48)) 0)
  else Option.none

/-- ASCII lower-casing of a string, the model of `str.lower()`. -/
def strLower (s : String) : String :=
  ⟨s.data.map Char.toLower⟩

/-- The ASCII whitespace characters `int(...)` strips (Py_ISSPACE): space,
tab, newline, vertical tab, form feed, carriage return. -/
def isPySpace (c : Char) : Bool :=
  c = ' ' ∨ c = '\t' ∨ c = '\n' ∨ c = '\x0b' ∨ c = '\x0c' ∨ c = '\r'

/-- Digit run with optional single-underscore grouping, each underscore
flanked by digits on both sides, as Python numeric-literal syntax accepts
inside `int(...)`.  `prevDigit` records whether the previous character was
a digit (so a leading or doubled underscore, a trailing underscore, and the
empty run are all rejected). -/
def digitsUnd (prevDigit : Bool) (acc : Nat) : List Char → Option Nat
  | [] => if prevDigit then some acc else Option.none
  | c :: rest =>
    if c.isDigit then digitsUnd true (acc * 10 + (c.toNat - 48)) rest
    else if c = '_' ∧ prevDigit then digitsUnd false acc rest
    else Option.none

/-- Decimal-integer parse of a string, the string case of Python
`int(...)`: surrounding whitespace stripped, an optional sign, then
underscore-groupable digits.  (Non-ASCII digits and Unicode spaces, which
CPython also accepts, do not occur in the consumed data and are not
modelled.) -/
def parseIntStr (s : String) : Option Int :=
  match (s.data.dropWhile isPySpace).reverse.dropWhile isPySpace |>.reverse with
  | '-' :: rest => (digitsUnd false 0 rest).map (fun n => -(n : Int))
  | '+' :: rest => (digitsUnd false 0 rest).map (fun n => (n : Int))
  | t => (digitsUnd false 0 t).map (fun n => (n : Int))

/-- Model of the builtin `int(x)`: ints pass through, bools coerce, strings
are parsed (`ValueError` on failure), everything else raises `TypeError`. -/
def pyInt : PyVal → Except PyErr Int
  | .int n => .ok n
  | .bool b => .ok (if b then 1 else 0)
  | .str s =>
    match parseIntStr s with
    | some n => .ok n
    | Option.none => .error .valueError
  | _ => .error .typeError

/-- Model of `x.lower()`: only strings have `.lower`. -/
def pyLower : PyVal → Except PyErr String
  | .str s => .ok (strLower s)
  | _ => .error .attributeError

/-- Gregorian leap-year test. -/
def isLeapYear (y : Int) : Bool :=
  (y % 4 == 0 && y % 100 != 0) || (y % 400 == 0)

/-- Length of a month in the proleptic Gregorian calendar. -/
def daysInMonth (y : Int) (m : Nat) : Nat :=
  if m = 2 then (if isLeapYear y then 29 else 28)
  else if m = 4 ∨ m = 6 ∨ m = 9 ∨ m = 11 then 30
  else 31

/-- Days since 1970-01-01 of a civil date (y, m, d); the standard
days-from-civil computation, matching the CPython date arithmetic. -/
def daysFromCivil (y : Int) (m d : Nat) : Int :=
  let y2 := y - (if m ≤ 2 then 1 else 0)
  let era := y2.fdiv 400
  let yoe := y2 - era * 400
  let mp : Int := if m > 2 then (m : Int) - 3 else (m : Int) + 9
  let doy := (153 * mp + 2).fdiv 5 + (d : Int) - 1
  let doe := yoe * 365 + yoe.fdiv 4 - yoe.fdiv 100 + doy
  era * 146097 + doe - 719468

/-- A day group as matched by the CPython `_strptime` regex for `%d`,
`3[01]|[12]\d|0[1-9]|[1-9]| [1-9]`, which the full-string match must
consume entirely: one digit, two digits, or a space followed by a non-zero
digit.  (Two-digit values above 31 and the lone or doubled zero leave
unconverted data or fail the regex; the numeric bound is enforced together
with month-length validity in `parseYMD`, giving the same accept set.) -/
def parseDayGroup : List Char → Option Nat
  | [' ', c] => if '1' ≤ c ∧ c ≤ '9' then some (c.toNat - 48) else Option.none
  | [c] => if c.isDigit then some (c.toNat - 48) else Option.none
  | [c1, c2] =>
    if c1.isDigit ∧ c2.isDigit then some ((c1.toNat - 48) * 10 + (c2.toNat - 48))
    else Option.none
  | _ => Option.none

/-- Parse of `datetime.strptime(s, "%Y-%m-%d").date()`, following the
CPython `_strptime` regular expressions and the `datetime` constructor:
`%Y` is exactly four digits, `%m` one or two digits valued 1..12, `%d` one
or two digits or a space followed by a non-zero digit, the whole string
consumed (three dash-separated groups and nothing else), the year at least
1 and the day valid for the month — any other input raises `ValueError`.
Result in days since epoch. -/
def parseYMD (s : String) : Option Int :=
  match splitDashes s.data with
  | [ys, ms, ds] =>
    match digitsToNat ys, digitsToNat ms, parseDayGroup ds with
    | some y, some m, some d =>
      if ys.length = 4 ∧ 1 ≤ y ∧ ms.length ≤ 2 ∧ 1 ≤ m ∧ m ≤ 12 ∧
         1 ≤ d ∧ d ≤ daysInMonth (Int.ofNat y) m
      then some (daysFromCivil (Int.ofNat y) m d)
      else Option.none
    | _, _, _ => Option.none
  | _ => Option.none

/-- Model of `datetime.strptime(v, "%Y-%m-%d").date()`: a non-string raises
`TypeError`, an unparseable string raises `ValueError`. -/
def strptime_date : PyVal → Except PyErr Int
  | .str s =>
    match parseYMD s with
    | some d => .ok d
    | Option.none => .error .valueError
  | _ => .error .typeError

/-- Model of `datetime.fromtimestamp(ts, tz=timezone.utc).date()`: the UTC
calendar day containing epoch second `ts` is `ts.fdiv 86400`; timestamps
outside the datetime year range 1..9999 raise. -/
def fromtimestamp_date (ts : Int) : Except PyErr Int :=
  let day := ts.fdiv 86400
  if -719162 ≤ day ∧ day ≤ 2932896 then .ok day else .error .valueError

/-- A sparse day→count mapping (`collections.Counter`); `counter.get(d, 0)`
is application, so absent days read as 0. -/
def Counter := Int → Nat

/-- Model of `counter[day] += 1`. -/
def Counter.incr (c : Counter) (d : Int) : Counter :=
  fun x => if x = d then c x + 1 else c x

/-- The all-zero counter `Counter()`. -/
def Counter.empty : Counter := fun _ => 0

/-- Model of `collections.Counter(dates)`: each day maps to its number of
occurrences in the list. -/
def listCounter (l : List Int) : Counter :=
  fun d => l.count d

/-- reporting.py lines 237-247, `_extract_items_from_response(endpoint,
data)`: unwrap an optional "response" envelope, then return the entity list
for the endpoint, the dict values as a fallback, a bare list unchanged, or
an empty list.  `data.get` raises `AttributeError` when `data` is not a
dict. -/
def extract_items_from_response (endpoint : String) (data : PyVal) :
    Except PyErr PyVal :=
  match data.getd "response" data with
  | .error err => .error err
  | .ok response =>
    match response with
    | .dict kvs =>
      if endpoint = "events" ∧ (alook "Event" kvs).isSome then
        .ok ((alook "Event" kvs).getD PyVal.none)
      else if endpoint = "attributes" ∧ (alook "Attribute" kvs).isSome then
        .ok ((alook "Attribute" kvs).getD PyVal.none)
      else .ok (.list (kvs.map Prod.snd))
    | .list l => .ok (.list l)
    | _ => .ok (.list [])

/-- Whether a value is a mapping or a sequence (the two shapes the
normalizer fallback chain recognizes). -/
def isMapOrSeq : PyVal → Bool
  | .dict _ => true
  | .list _ => true
  | _ => false

/-- The response-shape idiom repeated at the top of every event extractor
(reporting.py lines 272-278, 319-325, 435-442): unwrap "response", then take
the "Event" list from a dict, a bare list as-is, or report `Option.none` for
any other shape (the extractor then returns its empty accumulator). -/
def response_event_list (events_json : PyVal) :
    Except PyErr (Option (List PyVal)) :=
  match events_json.getd "response" events_json with
  | .error err => .error err
  | .ok response =>
    match response with
    | .dict kvs =>
      match alook "Event" kvs with
      | some v =>
        match pyIter v with
        | .error err => .error err
        | .ok l => .ok (some l)
      | Option.none => .ok Option.none
    | .list l => .ok (some l)
    | _ => .ok Option.none

/-- Loop body of `extract_events_by_day` (reporting.py lines 279-295).  Note
the early `continue` when a present "date" field fails to parse: the
timestamp is consulted only when "date" is absent or falsy.  the `strptime`
`TypeError` (non-string date) is not caught; the timestamp conversion sits
in a catch-all `except`. -/
def events_by_day_loop (start_date end_date : Int) :
    List PyVal → Counter → Except PyErr Counter
  | [], counter => .ok counter
  | e :: rest, counter =>
    match e.getd "Event" e with
    | .error err => .error err
    | .ok event =>
      match event.getk "date" with
      | .error err => .error err
      | .ok date_str =>
        if date_str.truthy then
          match strptime_date date_str with
          | .error .valueError => events_by_day_loop start_date end_date rest counter
          | .error err => .error err
          | .ok day =>
            if start_date ≤ day ∧ day ≤ end_date then
              events_by_day_loop start_date end_date rest (counter.incr day)
            else
              events_by_day_loop start_date end_date rest counter
        else
          match
            ((match event.getk "timestamp" with
              | .error err => Except.error err
              | .ok tsv =>
                match pyInt tsv with
                | .error err => Except.error err
                | .ok ts => fromtimestamp_date ts) : Except PyErr Int) with
          | .error _ => events_by_day_loop start_date end_date rest counter
          | .ok day =>
            if start_date ≤ day ∧ day ≤ end_date then
              events_by_day_loop start_date end_date rest (counter.incr day)
            else
              events_by_day_loop start_date end_date rest counter

/-- reporting.py lines 270-295, `extract_events_by_day`: count events per
resolved calendar day inside `[start_date, end_date]`. -/
def extract_events_by_day (events_json : PyVal) (start_date end_date : Int) :
    Except PyErr Counter :=
  match response_event_list events_json with
  | .error err => .error err
  | .ok Option.none => .ok Counter.empty
  | .ok (some event_list) => events_by_day_loop start_date end_date event_list Counter.empty

/-- The date-resolution fall-through used by the object, prefix and tagged
extractors (reporting.py lines 336-347, 368-380, 456-468): try a truthy
"date" field, treating only `ValueError` as "unparseable" (fall through);
then try `int(x.get("timestamp"))` + UTC conversion under a catch-all
`except` whose failure means "skip the record" (`.ok Option.none`). -/
def resolve_day_fallthrough (x : PyVal) : Except PyErr (Option Int) :=
  match x.getk "date" with
  | .error err => .error err
  | .ok date_str =>
    match
      (if date_str.truthy then
        match strptime_date date_str with
        | .ok d => Except.ok (some d)
        | .error .valueError => Except.ok Option.none
        | .error err => Except.error err
      else Except.ok Option.none) with
    | .error err => .error err
    | .ok (some d) => .ok (some d)
    | .ok Option.none =>
      match x.getk "timestamp" with
      | .error _ => .ok Option.none
      | .ok tsv =>
        match pyInt tsv with
        | .error _ => .ok Option.none
        | .ok ts =>
          match fromtimestamp_date ts with
          | .error _ => .ok Option.none
          | .ok d => .ok (some d)

/-- Inner loop of `extract_object_dates` (reporting.py lines 334-351): for
each nested object, unwrap an optional "Object" envelope, resolve its date
with fall-through, and append it when inside the range. -/
def object_dates_inner (start_date end_date : Int) :
    List PyVal → List Int → Except PyErr (List Int)
  | [], dates => .ok dates
  | o :: rest, dates =>
    match o.getd "Object" o with
    | .error err => .error err
    | .ok obj =>
      match resolve_day_fallthrough obj with
      | .error err => .error err
      | .ok Option.none => object_dates_inner start_date end_date rest dates
      | .ok (some day) =>
        if start_date ≤ day ∧ day ≤ end_date then
          object_dates_inner start_date end_date rest (dates ++ [day])
        else
          object_dates_inner start_date end_date rest dates

/-- Outer loop of `extract_object_dates` (reporting.py lines 327-351):
optionally filter events by a case-insensitive info prefix, then walk the
nested "Object" collection of the event. -/
def object_dates_outer (start_date end_date : Int) (pfxLower : Option String) :
    List PyVal → List Int → Except PyErr (List Int)
  | [], dates => .ok dates
  | e :: rest, dates =>
    match e.getd "Event" e with
    | .error err => .error err
    | .ok event =>
      match
        (match pfxLower with
         | Option.none => Except.ok true
         | some pl =>
           match event.getk "info" with
           | .error err => Except.error err
           | .ok infov =>
             match pyLower (if infov.truthy then infov else PyVal.str "") with
             | .error err => Except.error err
             | .ok info => Except.ok (info.startsWith pl)) with
      | .error err => .error err
      | .ok false => object_dates_outer start_date end_date pfxLower rest dates
      | .ok true =>
        match event.getd "Object" (PyVal.list []) with
        | .error err => .error err
        | .ok objs0 =>
          let objs1 := if objs0.truthy then objs0 else PyVal.list []
          match pyIter objs1 with
          | .error err => .error err
          | .ok objects =>
            match object_dates_inner start_date end_date objects dates with
            | .error err => .error err
            | .ok dates2 => object_dates_outer start_date end_date pfxLower rest dates2

/-- reporting.py lines 317-351, `extract_object_dates`: collect the resolved
dates of nested objects of (optionally prefix-filtered) events.  An empty
prefix string is falsy in Python, so it disables filtering. -/
def extract_object_dates (events_json : PyVal) (start_date end_date : Int)
    (pfx : Option String) : Except PyErr (List Int) :=
  let pfxLower : Option String :=
    match pfx with
    | some p => if p = "" then Option.none else some (strLower p)
    | Option.none => Option.none
  match response_event_list events_json with
  | .error err => .error err
  | .ok Option.none => .ok []
  | .ok (some event_list) => object_dates_outer start_date end_date pfxLower event_list []

/-- reporting.py line 443: `family_map = {family: family.lower() for family
in family_keywords}`. -/
def famMap (fams : List String) : List (String × String) :=
  fams.map (fun f => (f, strLower f))

/-- reporting.py lines 450-453: scan `family_map` for keywords occurring
(case-insensitively) as substrings of one tag name, adding matches to the
`matched` set (modelled as a duplicate-free list). -/
def tag_matched_fold (fmap : List (String × String)) (name : String)
    (matched : List String) : List String :=
  fmap.foldl
    (fun acc fp =>
      if fp.2.data <:+: name.data ∧ fp.1 ∉ acc then acc ++ [fp.1] else acc)
    matched

/-- reporting.py lines 447-453: accumulate the set of matched families over
the tags of an event; each tag may be wrapped under a "Tag" key, and a falsy
"name" is replaced by "" before lowering. -/
def tagged_matched (fmap : List (String × String)) :
    List PyVal → List String → Except PyErr (List String)
  | [], matched => .ok matched
  | t :: rest, matched =>
    match t.getd "Tag" t with
    | .error err => .error err
    | .ok tag =>
      match tag.getk "name" with
      | .error err => .error err
      | .ok namev =>
        match pyLower (if namev.truthy then namev else PyVal.str "") with
        | .error err => .error err
        | .ok name => tagged_matched fmap rest (tag_matched_fold fmap name matched)

/-- Per-event body of `extract_tagged_event_dates_by_family` (reporting.py
lines 444-470): `Option.none` means the loop `continue`s (no matching
family, unusable date, or date out of range); `some (matched, day)` means
the event contributes `day` to every family in `matched` and once to the
aggregated list. -/
def tagged_event_step (fmap : List (String × String)) (s e : Int) (ev : PyVal) :
    Except PyErr (Option (List String × Int)) :=
  match ev.getd "Event" ev with
  | .error err => .error err
  | .ok event =>
    match event.getd "Tag" (PyVal.list []) with
    | .error err => .error err
    | .ok tags0 =>
      let tags1 := if tags0.truthy then tags0 else PyVal.list []
      match pyIter tags1 with
      | .error err => .error err
      | .ok tagItems =>
        match tagged_matched fmap tagItems [] with
        | .error err => .error err
        | .ok matched =>
          if matched = [] then .ok Option.none
          else
            match resolve_day_fallthrough event with
            | .error err => .error err
            | .ok Option.none => .ok Option.none
            | .ok (some day) =>
              if s ≤ day ∧ day ≤ e then .ok (some (matched, day))
              else .ok Option.none

/-- Append `d` to the date list stored under key `k` (reporting.py line 472,
`dates_by_family[family].append(day)`). -/
def assocAppend (m : List (String × List Int)) (k : String) (d : Int) :
    List (String × List Int) :=
  m.map (fun kv => if kv.1 = k then (kv.1, kv.2 ++ [d]) else kv)

/-- Python dict insertion (used to model the initializing dict
comprehension): replace the value of an existing key or append a new entry. -/
def dictInsert (m : List (String × α)) (k : String) (v : α) :
    List (String × α) :=
  if m.any (fun kv => decide (kv.1 = k)) then
    m.map (fun kv => if kv.1 = k then (k, v) else kv)
  else m ++ [(k, v)]

/-- reporting.py line 434: `dates_by_family = {family: [] for family in
family_keywords}`. -/
def buildInit (fams : List String) : List (String × List Int) :=
  fams.foldl (fun m f => dictInsert m f []) []

/-- The event loop of `extract_tagged_event_dates_by_family` (reporting.py
lines 444-473), threading the per-family dict and the aggregated list. -/
def tagged_loop (fmap : List (String × String)) (s e : Int) :
    List PyVal → List (String × List Int) × List Int →
    Except PyErr (List (String × List Int) × List Int)
  | [], acc => .ok acc
  | ev :: rest, acc =>
    match tagged_event_step fmap s e ev with
    | .error err => .error err
    | .ok Option.none => tagged_loop fmap s e rest acc
    | .ok (some (matched, day)) =>
      tagged_loop fmap s e rest
        (matched.foldl (fun m f => assocAppend m f day) acc.1, acc.2 ++ [day])

/-- reporting.py lines 433-474, `extract_tagged_event_dates_by_family`:
per-family date lists (one pre-created key per supplied keyword) plus the
aggregated cross-family date list. -/
def extract_tagged_event_dates_by_family (events_json : PyVal)
    (start_date end_date : Int) (family_keywords : List String) :
    Except PyErr (List (String × List Int) × List Int) :=
  let init := buildInit family_keywords
  match response_event_list events_json with
  | .error err => .error err
  | .ok Option.none => .ok (init, [])
  | .ok (some event_list) =>
    tagged_loop (famMap family_keywords) start_date end_date event_list (init, [])

/-- reporting.py lines 476-483, `build_time_series`: walk every day from
`start_date` to `end_date` inclusive, reading `counter.get(cur, 0)`. -/
def build_time_series (counter : Counter) (start_date end_date : Int) :
    List Int × List Nat :=
  if start_date ≤ end_date then
    let rest := build_time_series counter (start_date + 1) end_date
    (start_date :: rest.1, counter start_date :: rest.2)
  else ([], [])
termination_by (end_date + 1 - start_date).toNat
decreasing_by simp_wf; omega

/-- The weekly binning loop body shared verbatim by
`build_weekly_time_series` (reporting.py lines 491-495) and
`build_family_weekly_time_series` (lines 507-511): an in-range date
increments bin `(d - start_date) // 7` when that index is in `[0, weeks)`. -/
def weekly_step (start_date end_date weeks : Int) (counts : List Nat) (d : Int) :
    List Nat :=
  if start_date ≤ d ∧ d ≤ end_date then
    let idx := (d - start_date).fdiv 7
    if 0 ≤ idx ∧ idx < weeks then
      counts.set idx.toNat (counts.getD idx.toNat 0 + 1)
    else counts
  else counts

/-- reporting.py lines 485-496, `build_weekly_time_series`: `weeks` 7-day
bins whose last bin ends at `end_date`; empty output for `weeks <= 0`. -/
def build_weekly_time_series (dates_list : List Int) (weeks end_date : Int) :
    List Int × List Nat :=
  if weeks ≤ 0 then ([], [])
  else
    let start_date := end_date - (weeks * 7 - 1)
    let week_starts := (List.range weeks.toNat).map (fun i : Nat => start_date + 7 * (i : Int))
    let counts := dates_list.foldl (weekly_step start_date end_date weeks)
      (List.replicate weeks.toNat 0)
    (week_starts, counts)

/-- Per-family body of `build_family_weekly_time_series` (reporting.py lines
503-513): skip empty date lists, bin the rest, and keep only families with
some non-zero bin. -/
def family_step (start_date end_date weeks : Int)
    (series : List (String × List Nat)) (fd : String × List Int) :
    List (String × List Nat) :=
  if fd.2 = [] then series
  else
    let counts := fd.2.foldl (weekly_step start_date end_date weeks)
      (List.replicate weeks.toNat 0)
    if counts.any (fun c => c != 0) then series ++ [(fd.1, counts)] else series

/-- reporting.py lines 498-514, `build_family_weekly_time_series`: week
count is `ceil(range_days / 7)`, bins are anchored at `start_date`, and
all-zero families are dropped. -/
def build_family_weekly_time_series (dates_by_family : List (String × List Int))
    (start_date end_date : Int) : List Int × List (String × List Nat) :=
  let days_range := (end_date - start_date) + 1
  let weeks := (days_range + 6).fdiv 7
  let week_starts := (List.range weeks.toNat).map (fun i : Nat => start_date + 7 * (i : Int))
  let series := dates_by_family.foldl (family_step start_date end_date weeks) []
  (week_starts, series)

/-- reporting.py lines 826-830, `create_overview_page`: raise `ValueError`
on an empty date axis, otherwise render.  The matplotlib drawing calls are
out-of-scope collaborators and are modelled as pure; the only other page
use of the axis is the subtitle `f"{dates[0]} – {dates[-1]}"`, whose two
endpoint accesses we return. -/
def create_overview_page (dates : List Int) (event_counts attr_counts : List Nat) :
    Except PyErr (Int × Int) :=
  match dates with
  | [] => .error .valueError
  | d :: rest => .ok (d, (d :: rest).getLast (List.cons_ne_nil d rest))

/-! ### Closed form of the daily builder -/

/-- The daily while-loop (reporting.py lines 478-482) unrolled: axis and
values are maps over `List.range`. -/
theorem build_time_series_eq (c : Counter) (s e : Int) :
    build_time_series c s e =
      ((List.range (e + 1 - s).toNat).map (fun i : Nat => s + (i : Int)),
       (List.range (e + 1 - s).toNat).map (fun i : Nat => c (s + (i : Int)))) := by
  generalize hn : (e + 1 - s).toNat = n
  induction n generalizing s with
  | zero =>
    rw [build_time_series]
    have h : ¬ s ≤ e := by omega
    simp [h]
  | succ m ih =>
    rw [build_time_series]
    have hse : s ≤ e := by omega
    rw [if_pos hse]
    have h2 : (e + 1 - (s + 1)).toNat = m := by omega
    rw [ih (s + 1) h2]
    rw [List.range_succ_eq_map]
    simp only [List.map_cons, List.map_map, Function.comp]
    have hfun1 : (fun i : Nat => s + ((i + 1 : Nat) : Int)) = (fun i : Nat => s + 1 + (i : Int)) := by
      funext i; push_cast; ring
    have hfun2 : (fun i : Nat => c (s + ((i + 1 : Nat) : Int))) = (fun i : Nat => c (s + 1 + (i : Int))) := by
      funext i
      have : s + ((i + 1 : Nat) : Int) = s + 1 + (i : Int) := by push_cast; ring
      rw [this]
    simp only [List.map_map, Function.comp_def, Nat.succ_eq_add_one, Nat.cast_zero, add_zero]
    rw [hfun1, hfun2]

/-- How often a day occurs on the dense axis: once inside the range, never
outside. -/
theorem count_range_map (n : Nat) (s d : Int) :
    ((List.range n).map (fun i : Nat => s + (i : Int))).count d =
      if s ≤ d ∧ d < s + n then 1 else 0 := by
  induction n with
  | zero =>
    simp only [List.range_zero, List.map_nil, List.count_nil, Nat.cast_zero]
    split_ifs with h
    · omega
    · rfl
  | succ m ih =>
    rw [List.range_succ, List.map_append, List.count_append, ih]
    simp only [List.map_cons, List.map_nil]
    have hone : List.count d [s + (m : Int)] = if s + (m : Int) = d then 1 else 0 := by
      simp [List.count_cons]
    rw [hone]
    push_cast
    split_ifs <;> omega

/-! ### Claim C3 — daily dense builder -/

/-- C3: for every sparse day-count mapping and every date range with
start ≤ end, `build_time_series` returns two equal-length sequences of
length `(end - start).days + 1`; the date axis is `start, start+1, …, end`
(strictly increasing by exactly one day, from `start` to `end` inclusive,
since entry `i` is `start + i`), and the value at index `i` is the count of the mapping
 for day `start + i` (the counter is a total function, so absent days
read as 0, exactly like `counter.get(day, 0)`). -/
theorem build_time_series_spec (counter : Counter) (s e : Int) (h : s ≤ e) :
    (build_time_series counter s e).1.length = (e - s).toNat + 1 ∧
    (build_time_series counter s e).2.length = (e - s).toNat + 1 ∧
    (∀ i, i < (e - s).toNat + 1 →
      (build_time_series counter s e).1.getD i 0 = s + (i : Int)) ∧
    (∀ i, i < (e - s).toNat + 1 →
      (build_time_series counter s e).2.getD i 0 = counter (s + (i : Int))) := by
  have hn : (e + 1 - s).toNat = (e - s).toNat + 1 := by omega
  rw [build_time_series_eq, hn]
  refine ⟨by simp, by simp, ?_, ?_⟩
  · intro i hi
    simp [List.getD_eq_getElem?_getD, List.getElem?_map, List.getElem?_range, hi]
  · intro i hi
    simp [List.getD_eq_getElem?_getD, List.getElem?_map, List.getElem?_range, hi]

theorem build_time_series_spec_witness :
    (0 : Int) ≤ 2 ∧
    (build_time_series (fun d : Int => if d = 1 then 3 else 0) 0 2).1.length =
      ((2 : Int) - 0).toNat + 1 :=
  ⟨by decide, (build_time_series_spec (fun d : Int => if d = 1 then 3 else 0) 0 2 (by decide)).1⟩

/-! ### Claim C8 — daily builder round trip -/

/-- C8 counterexample: with the counter assigning 2 to day 0, on the
one-day range [0, 0], the daily builder yields counts `[2]`; counting the
output date axis `[0]` into a counter and rebuilding yields `[1]`, not the
identical counts the claim asserts for every counter. -/
theorem daily_roundtrip_cex :
    (build_time_series
        (listCounter (build_time_series (fun d : Int => if d = 0 then 2 else 0) 0 0).1) 0 0).2 ≠
      (build_time_series (fun d : Int => if d = 0 then 2 else 0) 0 0).2 := by
  simp only [build_time_series_eq]
  decide

/-- C8 (amended): counting the output date axis of `build_time_series` into a
counter and rebuilding on the same range preserves the axis and produces
the all-ones series (each axis day occurs exactly once); consequently the
round trip reproduces the original counts exactly when those counts are
already all 1 (dense one-per-day input), and the round-trip operation is
idempotent — feeding the rebuilt output dates back once more reproduces
the rebuilt series identically. -/
theorem daily_roundtrip_amended (c : Counter) (s e : Int) (h : s ≤ e) :
    (build_time_series (listCounter (build_time_series c s e).1) s e).1 =
      (build_time_series c s e).1 ∧
    (build_time_series (listCounter (build_time_series c s e).1) s e).2 =
      List.replicate ((e - s).toNat + 1) 1 ∧
    build_time_series
        (listCounter (build_time_series (listCounter (build_time_series c s e).1) s e).1) s e =
      build_time_series (listCounter (build_time_series c s e).1) s e ∧
    ((build_time_series (listCounter (build_time_series c s e).1) s e).2 =
        (build_time_series c s e).2 ↔
      (build_time_series c s e).2 = List.replicate ((e - s).toNat + 1) 1) := by
  have hn : (e + 1 - s).toNat = (e - s).toNat + 1 := by omega
  have hones :
      (build_time_series (listCounter (build_time_series c s e).1) s e).2 =
        List.replicate ((e - s).toNat + 1) 1 := by
    simp only [build_time_series_eq]
    rw [List.eq_replicate_iff]
    refine ⟨by simp [hn], ?_⟩
    intro b hb
    obtain ⟨i, hi, rfl⟩ := List.mem_map.mp hb
    have hilt : i < (e + 1 - s).toNat := List.mem_range.mp hi
    show listCounter _ (s + (i : Int)) = 1
    unfold listCounter
    rw [count_range_map]
    have : s ≤ s + (i : Int) ∧ s + (i : Int) < s + ((e + 1 - s).toNat : Int) := by
      constructor
      · omega
      · have : (i : Int) < ((e + 1 - s).toNat : Int) := by exact_mod_cast hilt
        omega
    rw [if_pos this]
  refine ⟨?_, hones, ?_, ?_⟩
  · simp only [build_time_series_eq]
  · simp only [build_time_series_eq]
  · rw [hones, eq_comm]

theorem daily_roundtrip_amended_witness :
    (0 : Int) ≤ 1 ∧
    (build_time_series (listCounter (build_time_series Counter.empty 0 1).1) 0 1).2 =
      List.replicate (((1 : Int) - 0).toNat + 1) 1 :=
  ⟨by decide, (daily_roundtrip_amended Counter.empty 0 1 (by decide)).2.1⟩

/-! ### Claim C9 — overview page fails exactly on an empty date axis -/

/-- C9: `create_overview_page` raises an error exactly when handed an empty
date axis, and succeeds (no exception) on every non-empty axis — in
particular on a non-empty axis whose value series are all zero, which is
thus a distinct, valid case. -/
theorem overview_page_empty_axis_spec (dates : List Int) (ec ac : List Nat) :
    ((∃ err, create_overview_page dates ec ac = .error err) ↔ dates = []) ∧
    (dates ≠ [] → ∃ p, create_overview_page dates ec ac = .ok p) := by
  constructor
  · constructor
    · rintro ⟨err, herr⟩
      cases dates with
      | nil => rfl
      | cons d rest => simp [create_overview_page] at herr
    · rintro rfl
      exact ⟨.valueError, rfl⟩
  · intro hne
    cases dates with
    | nil => exact absurd rfl hne
    | cons d rest => exact ⟨_, rfl⟩

theorem overview_page_empty_axis_spec_witness :
    ([0, 1] : List Int) ≠ [] ∧
    ∃ p, create_overview_page [0, 1] [0, 0] [0, 0] = .ok p :=
  ⟨by decide, (overview_page_empty_axis_spec [0, 1] [0, 0] [0, 0]).2 (by decide)⟩

/-! ### Weekly-binning lemmas -/

/-- Reading `getD` after `set`: reading back the written slot or an untouched one. -/
theorem getD_set_nat (l : List Nat) (k j v : Nat) (hk : k < l.length) :
    (l.set k v).getD j 0 = if k = j then v else l.getD j 0 := by
  induction l generalizing k j with
  | nil => simp at hk
  | cons a l ih =>
    cases k with
    | zero =>
      cases j with
      | zero => simp [List.set]
      | succ j2 => simp [List.set]
    | succ k2 =>
      cases j with
      | zero => simp [List.set]
      | succ j2 =>
        simp only [List.set, List.getD_cons_succ]
        have hk2 : k2 < l.length := by simpa using hk
        rw [ih k2 j2 hk2]
        by_cases hkj : k2 = j2 <;> simp [hkj]

theorem weekly_step_length (s e w : Int) (cs : List Nat) (d : Int) :
    (weekly_step s e w cs d).length = cs.length := by
  unfold weekly_step
  by_cases h1 : s ≤ d ∧ d ≤ e
  · rw [if_pos h1]
    show (if 0 ≤ (d - s).fdiv 7 ∧ (d - s).fdiv 7 < w then
        cs.set ((d - s).fdiv 7).toNat (cs.getD ((d - s).fdiv 7).toNat 0 + 1)
      else cs).length = cs.length
    split_ifs <;> simp
  · rw [if_neg h1]

theorem weekly_fold_length (s e w : Int) (dl : List Int) (cs : List Nat) :
    (dl.foldl (weekly_step s e w) cs).length = cs.length := by
  induction dl generalizing cs with
  | nil => rfl
  | cons d dl ih => rw [List.foldl_cons, ih, weekly_step_length]

/-- Each bin of the weekly fold counts exactly the in-range dates whose
floor-divided week offset is the index of that bin. -/
theorem weekly_fold_getD (s e w : Int) (dl : List Int) (cs : List Nat)
    (hlen : cs.length = w.toNat) (j : Nat) (hj : j < w.toNat) :
    (dl.foldl (weekly_step s e w) cs).getD j 0 =
      cs.getD j 0 +
        dl.countP (fun d => decide (s ≤ d ∧ d ≤ e ∧ (d - s).fdiv 7 = (j : Int))) := by
  induction dl generalizing cs with
  | nil => simp
  | cons d dl ih =>
    rw [List.foldl_cons, List.countP_cons,
      ih (weekly_step s e w cs d) (by rw [weekly_step_length]; exact hlen)]
    have h7 : (d - s).fdiv 7 = (d - s) / 7 := Int.fdiv_eq_ediv _ (by norm_num)
    have key : (weekly_step s e w cs d).getD j 0 =
        cs.getD j 0 +
          if decide (s ≤ d ∧ d ≤ e ∧ (d - s).fdiv 7 = (j : Int)) then 1 else 0 := by
      unfold weekly_step
      by_cases h1 : s ≤ d ∧ d ≤ e
      · rw [if_pos h1]
        by_cases h2 : 0 ≤ (d - s).fdiv 7 ∧ (d - s).fdiv 7 < w
        · rw [if_pos h2]
          have hklen : ((d - s).fdiv 7).toNat < cs.length := by
            rw [hlen, h7] at *
            omega
          rw [getD_set_nat _ _ _ _ hklen]
          by_cases h3 : ((d - s).fdiv 7).toNat = j
          · rw [if_pos h3, h3]
            have hdec : decide (s ≤ d ∧ d ≤ e ∧ (d - s).fdiv 7 = (j : Int)) = true := by
              apply decide_eq_true
              refine ⟨h1.1, h1.2, ?_⟩
              rw [h7] at *
              omega
            rw [hdec]
            simp
          · rw [if_neg h3]
            have hdec : decide (s ≤ d ∧ d ≤ e ∧ (d - s).fdiv 7 = (j : Int)) = false := by
              apply decide_eq_false
              rintro ⟨-, -, hq⟩
              rw [h7] at *
              omega
            rw [hdec]
            simp
        · rw [if_neg h2]
          have hdec : decide (s ≤ d ∧ d ≤ e ∧ (d - s).fdiv 7 = (j : Int)) = false := by
            apply decide_eq_false
            rintro ⟨-, -, hq⟩
            rw [h7] at *
            omega
          rw [hdec]
          simp
      · rw [if_neg h1]
        have hdec : decide (s ≤ d ∧ d ≤ e ∧ (d - s).fdiv 7 = (j : Int)) = false := by
          apply decide_eq_false
          rintro ⟨ha, hb, -⟩
          exact h1 ⟨ha, hb⟩
        rw [hdec]
        simp
    rw [key]
    omega

/-- The function `build_weekly_time_series` in closed shape for a positive week count. -/
theorem build_weekly_pos (dl : List Int) (w e : Int) (hw : 0 < w) :
    build_weekly_time_series dl w e =
      ((List.range w.toNat).map (fun i : Nat => (e - (w * 7 - 1)) + 7 * (i : Int)),
       dl.foldl (weekly_step (e - (w * 7 - 1)) e w) (List.replicate w.toNat 0)) := by
  unfold build_weekly_time_series
  rw [if_neg (by omega)]

theorem build_family_fst (dbf : List (String × List Int)) (s e : Int) :
    (build_family_weekly_time_series dbf s e).1 =
      (List.range ((e - s + 1 + 6).fdiv 7).toNat).map (fun i : Nat => s + 7 * (i : Int)) := rfl

theorem build_family_snd (dbf : List (String × List Int)) (s e : Int) :
    (build_family_weekly_time_series dbf s e).2 =
      dbf.foldl (family_step s e ((e - s + 1 + 6).fdiv 7)) [] := rfl

/-- Last element of a 7-day-step axis. -/
theorem getLastD_range_map (n : Nat) (hn : 0 < n) (a : Int) :
    ((List.range n).map (fun i : Nat => a + 7 * (i : Int))).getLastD 0 =
      a + 7 * ((n : Int) - 1) := by
  obtain ⟨m, rfl⟩ : ∃ m, n = m + 1 := ⟨n - 1, by omega⟩
  rw [List.range_succ, List.map_append]
  simp only [List.map_cons, List.map_nil]
  rw [List.getLastD_concat]
  push_cast
  ring

/-! ### Claim C1 — fixed week-count weekly builder -/

/-- C1: for `weeks > 0`, `build_weekly_time_series` returns exactly `weeks`
bins; the week-start axis begins at `start = end_date - (weeks*7 - 1)` and
steps by 7 days (entry `i` is `start + 7*i`); bin `j` holds exactly the
number of input dates `d` with `start ≤ d ≤ end_date` and
`(d - start) // 7 = j` — so every in-range date increments exactly the one
bin `(d - start) // 7` and an out-of-range date increments no bin.  For
`weeks ≤ 0` the builder returns two empty sequences. -/
theorem build_weekly_time_series_spec (dl : List Int) (w e : Int) :
    (0 < w →
      ((build_weekly_time_series dl w e).1.length = w.toNat ∧
       (build_weekly_time_series dl w e).2.length = w.toNat ∧
       (∀ i, i < w.toNat →
         (build_weekly_time_series dl w e).1.getD i 0 =
           (e - (w * 7 - 1)) + 7 * (i : Int)) ∧
       (∀ j, j < w.toNat →
         (build_weekly_time_series dl w e).2.getD j 0 =
           dl.countP (fun d =>
             decide ((e - (w * 7 - 1)) ≤ d ∧ d ≤ e ∧
               (d - (e - (w * 7 - 1))).fdiv 7 = (j : Int)))))) ∧
    (w ≤ 0 → build_weekly_time_series dl w e = ([], [])) := by
  constructor
  · intro hw
    rw [build_weekly_pos dl w e hw]
    refine ⟨by simp, ?_, ?_, ?_⟩
    · rw [weekly_fold_length]
      simp
    · intro i hi
      simp [List.getD_eq_getElem?_getD, List.getElem?_map, List.getElem?_range, hi]
    · intro j hj
      rw [weekly_fold_getD _ _ _ _ _ (by simp) j hj]
      simp [List.getD_eq_getElem?_getD, List.getElem?_replicate, hj]
  · intro hw
    unfold build_weekly_time_series
    rw [if_pos hw]

theorem build_weekly_time_series_spec_witness :
    (0 : Int) < 2 ∧ (build_weekly_time_series [5] 2 13).1.length = (2 : Int).toNat :=
  ⟨by decide, ((build_weekly_time_series_spec [5] 2 13).1 (by decide)).1⟩

/-! ### Claim C6 — alignment of the two weekly entry points -/

/-- C6 counterexample: on the one-day range [0, 0] the per-category builder
computes `ceil(1/7) = 1` week starting at 0, so per the binning rule (week
`i` spans `[start + 7i, start + 7i + 6]`) its last bin ends on day 6, not at
`end_date = 0` — the per-category builder bins are anchored at
`start_date`, not at "whole weeks ending at `end_date`". -/
theorem family_weekly_last_bin_cex :
    (build_family_weekly_time_series [] 0 0).1.getLastD 0 + 6 ≠ (0 : Int) := by
  decide

/-- C6 (amended): the last bin of the fixed week-count builder always ends
exactly at `end_date`; the per-category builder bins are anchored at
`start_date`, so its last bin always contains `end_date` but ends exactly
at `end_date` if and only if the range length `(end - start) + 1` is a
multiple of 7.  ("Ends at" is the last day `last_week_start + 6` of the
bin rule of the spec, week `i` spanning `[start + 7i, start + 7i + 6]`.) -/
theorem weekly_alignment_amended (dl : List Int) (dbf : List (String × List Int))
    (w s e : Int) (hw : 0 < w) (hse : s ≤ e) :
    (build_weekly_time_series dl w e).1.getLastD 0 + 6 = e ∧
    (build_family_weekly_time_series dbf s e).1.getLastD 0 ≤ e ∧
    e ≤ (build_family_weekly_time_series dbf s e).1.getLastD 0 + 6 ∧
    ((build_family_weekly_time_series dbf s e).1.getLastD 0 + 6 = e ↔
      (7 : Int) ∣ (e - s + 1)) := by
  have hwn : (0 : Nat) < w.toNat := by omega
  have hcast : ((w.toNat : Int)) = w := Int.toNat_of_nonneg (by omega)
  have hfix : (build_weekly_time_series dl w e).1.getLastD 0 + 6 = e := by
    rw [build_weekly_pos dl w e hw, getLastD_range_map _ hwn, hcast]
    ring
  have hweeks7 : (e - s + 1 + 6).fdiv 7 = (e - s + 7) / 7 := by
    rw [Int.fdiv_eq_ediv _ (by norm_num)]
    omega
  have hwkpos : 0 < (e - s + 1 + 6).fdiv 7 := by
    rw [hweeks7]
    omega
  have hwkn : (0 : Nat) < ((e - s + 1 + 6).fdiv 7).toNat := by omega
  have hwkcast : ((((e - s + 1 + 6).fdiv 7).toNat : Int)) = (e - s + 1 + 6).fdiv 7 :=
    Int.toNat_of_nonneg (by omega)
  have hfam : (build_family_weekly_time_series dbf s e).1.getLastD 0 =
      s + 7 * ((e - s + 1 + 6).fdiv 7 - 1) := by
    rw [build_family_fst, getLastD_range_map _ hwkn, hwkcast]
  refine ⟨hfix, ?_, ?_, ?_⟩
  · rw [hfam, hweeks7]
    omega
  · rw [hfam, hweeks7]
    omega
  · rw [hfam, hweeks7]
    omega

theorem weekly_alignment_amended_witness :
    ((0 : Int) < 1 ∧ (0 : Int) ≤ 89) ∧
    (build_weekly_time_series [] 1 89).1.getLastD 0 + 6 = 89 :=
  ⟨⟨by decide, by decide⟩, (weekly_alignment_amended [] [] 1 0 89 (by decide) (by decide)).1⟩

/-! ### Claim C7 — all-zero categories are dropped, single series never is -/

/-- Entries surviving the per-family fold all have a non-zero bin. -/
theorem family_fold_allnonzero (s e w : Int) (dbf : List (String × List Int))
    (acc : List (String × List Nat))
    (hacc : ∀ f cs, (f, cs) ∈ acc → cs.any (fun c => c != 0) = true) :
    ∀ f cs, (f, cs) ∈ dbf.foldl (family_step s e w) acc →
      cs.any (fun c => c != 0) = true := by
  induction dbf generalizing acc with
  | nil => exact hacc
  | cons fd dbf ih =>
    rw [List.foldl_cons]
    apply ih
    intro f cs hmem
    unfold family_step at hmem
    by_cases h1 : fd.2 = []
    · rw [if_pos h1] at hmem
      exact hacc f cs hmem
    · rw [if_neg h1] at hmem
      by_cases h2 : (fd.2.foldl (weekly_step s e w) (List.replicate w.toNat 0)).any
          (fun c => c != 0) = true
      · rw [if_pos h2] at hmem
        rcases List.mem_append.mp hmem with hm | hm
        · exact hacc f cs hm
        · have hps : (f, cs) = (fd.1, fd.2.foldl (weekly_step s e w) (List.replicate w.toNat 0)) := by
            simpa using hm
          rw [Prod.mk.injEq] at hps
          rw [hps.2]
          exact h2
      · rw [if_neg h2] at hmem
        exact hacc f cs hmem

/-- C7: every category retained in the output mapping of the per-category weekly
builder has at least one non-zero bin (no all-zero category survives),
whereas the single-series weekly builder with `w > 0` always returns its
full `w`-bin series — in particular on an empty date list it returns the
all-zero `w`-bin series rather than dropping anything. -/
theorem family_weekly_dropzero_spec (dbf : List (String × List Int)) (s e : Int)
    (dl : List Int) (w e2 : Int) :
    (∀ f cs, (f, cs) ∈ (build_family_weekly_time_series dbf s e).2 →
      cs.any (fun c => c != 0) = true) ∧
    (0 < w → (build_weekly_time_series dl w e2).2.length = w.toNat) ∧
    (0 < w → (build_weekly_time_series [] w e2).2 = List.replicate w.toNat 0) := by
  refine ⟨?_, ?_, ?_⟩
  · rw [build_family_snd]
    apply family_fold_allnonzero
    intro f cs h
    simp at h
  · intro hw
    rw [build_weekly_pos dl w e2 hw, weekly_fold_length]
    simp
  · intro hw
    rw [build_weekly_pos [] w e2 hw]
    rfl

theorem family_weekly_dropzero_spec_witness :
    (0 : Int) < 3 ∧ (build_weekly_time_series [] 3 0).2.length = (3 : Int).toNat :=
  ⟨by decide, (family_weekly_dropzero_spec [] 0 0 [] 3 0).2.1 (by decide)⟩

/-! ### Claim C4 — normalizer on unrecognized shapes -/

/-- C4 counterexample: passing a bare empty list as the raw response makes
`_extract_items_from_response` raise `AttributeError` (at
`data.get("response", data)`), rather than returning an empty record
sequence — likewise for an integer or `None` top-level value, so the
claimed "never raises" fails at this concrete input. -/
theorem normalizer_raises_cex :
    extract_items_from_response "events" (PyVal.list []) = .error .attributeError := rfl

/-- C4 (amended): the normalizer never raises when the top-level raw
response is a mapping — in particular an empty mapping yields an empty
record sequence, and a mapping whose unwrapped "response" value is neither
a recognized mapping nor a list (integer, `None`, …) yields an empty
record sequence; but a non-mapping top-level value (a bare empty list, an
integer, or `None`) raises `AttributeError` at `data.get`. -/
theorem normalizer_shape_amended (ep : String) (kvs : List (String × PyVal))
    (v : PyVal) (hv : isMapOrSeq v = false) :
    (∃ r, extract_items_from_response ep (.dict kvs) = .ok r) ∧
    extract_items_from_response ep (.dict [("response", v)]) = .ok (.list []) ∧
    extract_items_from_response ep (.dict []) = .ok (.list []) ∧
    extract_items_from_response ep (.list []) = .error .attributeError ∧
    extract_items_from_response ep (.int 0) = .error .attributeError ∧
    extract_items_from_response ep PyVal.none = .error .attributeError := by
  refine ⟨?_, ?_, ?_, rfl, rfl, rfl⟩
  · unfold extract_items_from_response
    simp only [PyVal.getd]
    cases (alook "response" kvs).getD (PyVal.dict kvs) <;>
      first
      | exact ⟨_, rfl⟩
      | (dsimp only
         split_ifs <;> exact ⟨_, rfl⟩)
  · unfold extract_items_from_response
    simp only [PyVal.getd, alook, if_pos rfl]
    cases v <;> first | rfl | simp [isMapOrSeq] at hv
  · simp [extract_items_from_response, PyVal.getd, alook]

theorem normalizer_shape_amended_witness :
    isMapOrSeq (PyVal.int 7) = false ∧
    ∃ r, extract_items_from_response "x" (.dict [("a", PyVal.int 1)]) = .ok r :=
  ⟨rfl, (normalizer_shape_amended "x" [("a", PyVal.int 1)] (PyVal.int 7) rfl).1⟩

/-! ### Claim C2 — malformed date with valid timestamp -/

/-- A one-event response whose event carries the given "date" string and
integer "timestamp" (the record shape of claim C2 for
`extract_events_by_day`). -/
def mkDateTsEvent (s : String) (ts : Int) : PyVal :=
  PyVal.dict [("Event", PyVal.list
    [PyVal.dict [("date", PyVal.str s), ("timestamp", PyVal.int ts)]])]

/-- A one-event response whose event holds one nested object carrying the
given "date" string and integer "timestamp" (the record shape of claim C2
for `extract_object_dates`). -/
def mkDateTsObjEvent (s : String) (ts : Int) : PyVal :=
  PyVal.dict [("Event", PyVal.list
    [PyVal.dict [("Object", PyVal.list
      [PyVal.dict [("date", PyVal.str s), ("timestamp", PyVal.int ts)]])]])]

/-- C2 counterexample: an event whose "date" is the unparseable string
"bogus" and whose "timestamp" is the valid epoch second 86400 (UTC day 1,
inside the range [0, 10]) is dropped by `extract_events_by_day` — the day
count at day 1 stays 0, because that extractor `continue`s on a `ValueError`
from `strptime` instead of falling through to the timestamp. -/
theorem events_by_day_no_fallthrough_cex :
    Except.map (fun c : Counter => c 1)
      (extract_events_by_day (mkDateTsEvent "bogus" 86400) 0 10) = .ok 0 := by
  rfl

/-- The date/timestamp fall-through resolver on a record with a truthy but
unparseable "date" string and a valid integer "timestamp": it yields the
UTC day of the timestamp. -/
theorem resolve_day_fallthrough_unparseable (s : String) (ts : Int)
    (hs : s ≠ "") (hp : parseYMD s = Option.none)
    (hts : -719162 ≤ ts.fdiv 86400 ∧ ts.fdiv 86400 ≤ 2932896) :
    resolve_day_fallthrough
        (PyVal.dict [("date", PyVal.str s), ("timestamp", PyVal.int ts)]) =
      .ok (some (ts.fdiv 86400)) := by
  have hget1 : (PyVal.dict [("date", PyVal.str s), ("timestamp", PyVal.int ts)]).getk "date" =
      .ok (PyVal.str s) := rfl
  have hget2 : (PyVal.dict [("date", PyVal.str s), ("timestamp", PyVal.int ts)]).getk "timestamp" =
      .ok (PyVal.int ts) := rfl
  have htr : (PyVal.str s).truthy = true := by
    simp [PyVal.truthy, hs]
  have hst : strptime_date (PyVal.str s) = .error .valueError := by
    simp [strptime_date, hp]
  have hft : fromtimestamp_date ts = .ok (ts.fdiv 86400) := by
    simp [fromtimestamp_date, hts]
  unfold resolve_day_fallthrough
  rw [hget1]
  simp [htr, hst, hget2, pyInt, hft]

/-- C2 (amended): a record whose "date" field is present but unparseable
and whose "timestamp" is a valid integer epoch second is resolved to the
UTC calendar day of that epoch second — and counted when in range — by
`extract_object_dates` (and the other extractors using the
`day = None … if day is None` fall-through pattern); but
`extract_events_by_day` drops such a record outright (its loop `continue`s
on the `strptime` `ValueError` without consulting the timestamp), so there
the claimed fall-through does not happen. -/
theorem date_fallthrough_amended (s : String) (ts lo hi : Int)
    (hs : s ≠ "") (hp : parseYMD s = Option.none)
    (hts : -719162 ≤ ts.fdiv 86400 ∧ ts.fdiv 86400 ≤ 2932896)
    (hlo : lo ≤ ts.fdiv 86400) (hhi : ts.fdiv 86400 ≤ hi) :
    extract_object_dates (mkDateTsObjEvent s ts) lo hi Option.none =
      .ok [ts.fdiv 86400] ∧
    Except.map (fun c : Counter => c (ts.fdiv 86400))
      (extract_events_by_day (mkDateTsEvent s ts) lo hi) = .ok 0 := by
  constructor
  · have h1 : extract_object_dates (mkDateTsObjEvent s ts) lo hi Option.none =
        match object_dates_inner lo hi
            [PyVal.dict [("date", PyVal.str s), ("timestamp", PyVal.int ts)]] [] with
          | .error err => .error err
          | .ok d2 => .ok d2 := rfl
    rw [h1]
    have h2 : object_dates_inner lo hi
        [PyVal.dict [("date", PyVal.str s), ("timestamp", PyVal.int ts)]] [] =
        .ok [ts.fdiv 86400] := by
      have hg : (PyVal.dict [("date", PyVal.str s), ("timestamp", PyVal.int ts)]).getd
          "Object" (PyVal.dict [("date", PyVal.str s), ("timestamp", PyVal.int ts)]) =
          .ok (PyVal.dict [("date", PyVal.str s), ("timestamp", PyVal.int ts)]) := rfl
      unfold object_dates_inner
      rw [hg]
      dsimp only
      rw [resolve_day_fallthrough_unparseable s ts hs hp hts]
      have hrange : lo ≤ ts.fdiv 86400 ∧ ts.fdiv 86400 ≤ hi := ⟨hlo, hhi⟩
      simp [hrange, object_dates_inner]
    rw [h2]
  · have h1 : extract_events_by_day (mkDateTsEvent s ts) lo hi =
        events_by_day_loop lo hi
          [PyVal.dict [("date", PyVal.str s), ("timestamp", PyVal.int ts)]]
          Counter.empty := rfl
    rw [h1]
    have hget1 : (PyVal.dict [("date", PyVal.str s), ("timestamp", PyVal.int ts)]).getk "date" =
        .ok (PyVal.str s) := rfl
    have hgete : (PyVal.dict [("date", PyVal.str s), ("timestamp", PyVal.int ts)]).getd
        "Event" (PyVal.dict [("date", PyVal.str s), ("timestamp", PyVal.int ts)]) =
        .ok (PyVal.dict [("date", PyVal.str s), ("timestamp", PyVal.int ts)]) := rfl
    have htr : (PyVal.str s).truthy = true := by
      simp [PyVal.truthy, hs]
    have hst : strptime_date (PyVal.str s) = .error .valueError := by
      simp [strptime_date, hp]
    unfold events_by_day_loop
    rw [hgete]
    dsimp only
    rw [hget1]
    simp [htr, hst, events_by_day_loop, Except.map, Counter.empty]

theorem date_fallthrough_amended_witness :
    ("bogus" ≠ "" ∧ parseYMD "bogus" = Option.none) ∧
    extract_object_dates (mkDateTsObjEvent "bogus" 86400) 0 10 Option.none =
      .ok [(86400 : Int).fdiv 86400] :=
  ⟨⟨by decide, by rfl⟩,
   (date_fallthrough_amended "bogus" 86400 0 10 (by decide) (by rfl) (by decide)
     (by decide) (by decide)).1⟩

/-! ### Association-list lemmas for the tagged extractor -/

/-- Looking a key up after `assocAppend`. -/
theorem alook_assocAppend (m : List (String × List Int)) (k f : String) (d : Int) :
    alook f (assocAppend m k d) =
      if k = f then (alook f m).map (fun l => l ++ [d]) else alook f m := by
  induction m with
  | nil => simp [assocAppend, alook]
  | cons kv m ih =>
    simp only [assocAppend, List.map_cons]
    by_cases h1 : kv.1 = k
    · rw [if_pos h1]
      by_cases h2 : k = f
      · have hf : kv.1 = f := h1.trans h2
        simp only [alook, if_pos hf, if_pos h2, hf]
        simp [h1.symm.trans hf]
      · have hf : ¬ kv.1 = f := fun hh => h2 (h1.symm.trans hh)
        simp only [alook, if_neg hf, if_neg h2]
        have ih2 := ih
        rw [show assocAppend m k d =
          m.map (fun kv => if kv.1 = k then (kv.1, kv.2 ++ [d]) else kv) from rfl] at ih2
        rw [ih2, if_neg h2]
    · rw [if_neg h1]
      by_cases hf : kv.1 = f
      · have h2 : ¬ k = f := fun hh => h1 (hf.trans hh.symm)
        simp only [alook, if_pos hf, if_neg h2]
      · simp only [alook, if_neg hf]
        have ih2 := ih
        rw [show assocAppend m k d =
          m.map (fun kv => if kv.1 = k then (kv.1, kv.2 ++ [d]) else kv) from rfl] at ih2
        rw [ih2]

/-- Looking a key up after appending one day to a duplicate-free set of
families: the list under the key gains the day exactly when the key is in the set. -/
theorem alook_foldl_assocAppend (ms : List String) (hnd : ms.Nodup)
    (m : List (String × List Int)) (f : String) (d : Int) :
    alook f (ms.foldl (fun acc g => assocAppend acc g d) m) =
      if f ∈ ms then (alook f m).map (fun l => l ++ [d]) else alook f m := by
  induction ms generalizing m with
  | nil => simp
  | cons g ms ih =>
    rw [List.foldl_cons]
    rw [ih (List.Nodup.of_cons hnd) (assocAppend m g d)]
    rw [alook_assocAppend]
    by_cases hf : f ∈ ms
    · have hgf : ¬ g = f := fun hh => (List.nodup_cons.mp hnd).1 (hh ▸ hf)
      rw [if_pos hf, if_neg hgf, if_pos (List.mem_cons_of_mem g hf)]
    · rw [if_neg hf]
      by_cases hgf : g = f
      · rw [if_pos hgf, if_pos (hgf ▸ List.mem_cons_self g ms)]
      · rw [if_neg hgf, if_neg (by
          simp only [List.mem_cons]
          rintro (hh | hh)
          · exact hgf hh.symm
          · exact hf hh)]

theorem keys_assocAppend (m : List (String × List Int)) (k : String) (d : Int) :
    (assocAppend m k d).map Prod.fst = m.map Prod.fst := by
  induction m with
  | nil => rfl
  | cons kv m ih =>
    simp only [assocAppend, List.map_cons] at *
    by_cases h : kv.1 = k <;> simp [h, ih]

theorem keys_foldl_assocAppend (ms : List String) (m : List (String × List Int)) (d : Int) :
    (ms.foldl (fun acc g => assocAppend acc g d) m).map Prod.fst = m.map Prod.fst := by
  induction ms generalizing m with
  | nil => rfl
  | cons g ms ih => rw [List.foldl_cons, ih, keys_assocAppend]

/-- A successful lookup names an entry of the list. -/
theorem alook_mem (m : List (String × α)) (g : String) (x : α)
    (h : alook g m = some x) : (g, x) ∈ m := by
  induction m with
  | nil => simp [alook] at h
  | cons kv m ih =>
    unfold alook at h
    by_cases hk : kv.1 = g
    · rw [if_pos hk] at h
      simp only [Option.some.injEq] at h
      subst h
      exact hk ▸ List.mem_cons_self kv m
    · rw [if_neg hk] at h
      exact List.mem_cons_of_mem kv (ih h)

/-- A key on the key list has a successful lookup. -/
theorem alook_isSome_of_mem_keys (m : List (String × α)) (f : String)
    (h : f ∈ m.map Prod.fst) : ∃ l, alook f m = some l := by
  induction m with
  | nil => simp at h
  | cons kv m ih =>
    by_cases hk : kv.1 = f
    · exact ⟨kv.2, by simp [alook, hk]⟩
    · have h2 : f ∈ m.map Prod.fst := by
        rcases List.mem_cons.mp h with hh | hh
        · exact absurd hh.symm hk
        · exact hh
      obtain ⟨l, hl⟩ := ih h2
      exact ⟨l, by simp [alook, hk, hl]⟩

/-! ### Properties of the initial per-family dict -/

theorem keys_dictInsert_of_not_mem (m : List (String × α)) (k : String) (v : α)
    (h : k ∉ m.map Prod.fst) :
    (dictInsert m k v).map Prod.fst = m.map Prod.fst ++ [k] := by
  unfold dictInsert
  rw [if_neg ?hcond]
  case hcond =>
    intro hany
    obtain ⟨kv, hkv, hdec⟩ := List.any_eq_true.mp hany
    exact h (List.mem_map.mpr ⟨kv, hkv, of_decide_eq_true hdec⟩)
  simp

theorem buildInit_keys_go (fams : List String) (acc : List (String × List Int))
    (hnd : fams.Nodup) (hdisj : ∀ f ∈ fams, f ∉ acc.map Prod.fst) :
    (fams.foldl (fun m f => dictInsert m f []) acc).map Prod.fst =
      acc.map Prod.fst ++ fams := by
  induction fams generalizing acc with
  | nil => simp
  | cons g fams ih =>
    rw [List.foldl_cons]
    have hg : g ∉ acc.map Prod.fst := hdisj g (List.mem_cons_self g fams)
    have hkeys := keys_dictInsert_of_not_mem acc g ([] : List Int) hg
    rw [ih (dictInsert acc g []) (List.Nodup.of_cons hnd) ?hdisj2, hkeys]
    · simp
    case hdisj2 =>
      intro f hf
      rw [hkeys]
      simp only [List.mem_append, List.mem_singleton]
      rintro (hh | hh)
      · exact hdisj f (List.mem_cons_of_mem g hf) hh
      · exact (List.nodup_cons.mp hnd).1 (hh ▸ hf)

/-- The initializing dict comprehension creates exactly one key per supplied
keyword, in the supplied order. -/
theorem buildInit_keys (fams : List String) (hnd : fams.Nodup) :
    (buildInit fams).map Prod.fst = fams := by
  have := buildInit_keys_go fams [] hnd (by simp)
  simpa [buildInit] using this

theorem buildInit_vals_go (fams : List String) (acc : List (String × List Int))
    (hacc : ∀ kv ∈ acc, kv.2 = ([] : List Int)) :
    ∀ kv ∈ fams.foldl (fun m f => dictInsert m f []) acc, kv.2 = ([] : List Int) := by
  induction fams generalizing acc with
  | nil => exact hacc
  | cons g fams ih =>
    rw [List.foldl_cons]
    apply ih
    intro kv hkv
    unfold dictInsert at hkv
    split_ifs at hkv with hc
    · obtain ⟨kv2, hkv2, hval⟩ := List.mem_map.mp hkv
      by_cases hk : kv2.1 = g
      · rw [if_pos hk] at hval
        rw [← hval]
      · rw [if_neg hk] at hval
        rw [← hval]
        exact hacc kv2 hkv2
    · rcases List.mem_append.mp hkv with hh | hh
      · exact hacc kv hh
      · simp only [List.mem_singleton] at hh
        rw [hh]

/-- Every key of the initial dict maps to the empty date list. -/
theorem alook_buildInit (fams : List String) (hnd : fams.Nodup) (f : String)
    (hf : f ∈ fams) :
    alook f (buildInit fams) = some ([] : List Int) := by
  obtain ⟨l, hl⟩ := alook_isSome_of_mem_keys (buildInit fams) f
    (by rw [buildInit_keys fams hnd]; exact hf)
  have hmem := alook_mem _ _ _ hl
  have hval : l = ([] : List Int) := buildInit_vals_go fams [] (by simp) _ hmem
  rw [hl, hval]

/-! ### The per-event step, observed -/

/-- The day one event contributes to the aggregated list (if any), read off
the loop body. -/
def stepDay (fmap : List (String × String)) (s e : Int) (ev : PyVal) : Option Int :=
  match tagged_event_step fmap s e ev with
  | .ok (some (_, d)) => some d
  | _ => Option.none

/-- The day one event contributes to the list of family `f` (if any). -/
def stepDayFor (fmap : List (String × String)) (s e : Int) (f : String) (ev : PyVal) :
    Option Int :=
  match tagged_event_step fmap s e ev with
  | .ok (some (ms, d)) => if f ∈ ms then some d else Option.none
  | _ => Option.none

theorem tag_matched_fold_nodup (fmap : List (String × String)) (name : String)
    (acc : List String) (h : acc.Nodup) : (tag_matched_fold fmap name acc).Nodup := by
  unfold tag_matched_fold
  induction fmap generalizing acc with
  | nil => exact h
  | cons fp fmap ih =>
    rw [List.foldl_cons]
    apply ih
    split_ifs with hcond
    · refine List.Nodup.append h (List.nodup_singleton fp.1) ?_
      simp only [List.disjoint_singleton]
      exact hcond.2
    · exact h

theorem tag_matched_fold_subset (fmap : List (String × String)) (name : String)
    (acc : List String) :
    ∀ x ∈ tag_matched_fold fmap name acc, x ∈ acc ∨ x ∈ fmap.map Prod.fst := by
  unfold tag_matched_fold
  induction fmap generalizing acc with
  | nil =>
    intro x hx
    exact Or.inl hx
  | cons fp fmap ih =>
    rw [List.foldl_cons]
    intro x hx
    rcases ih _ x hx with hh | hh
    · split_ifs at hh with hcond
      · rcases List.mem_append.mp hh with h2 | h2
        · exact Or.inl h2
        · simp only [List.mem_singleton] at h2
          exact Or.inr (by simp [h2])
      · exact Or.inl hh
    · refine Or.inr ?_
      simp only [List.map_cons, List.mem_cons]
      exact Or.inr hh

theorem tagged_matched_nodup (fmap : List (String × String)) (tags : List PyVal)
    (acc : List String) (res : List String) (hacc : acc.Nodup)
    (h : tagged_matched fmap tags acc = .ok res) : res.Nodup := by
  induction tags generalizing acc with
  | nil =>
    unfold tagged_matched at h
    simp only [Except.ok.injEq] at h
    exact h ▸ hacc
  | cons t tags ih =>
    unfold tagged_matched at h
    cases hg : t.getd "Tag" t with
    | error err => rw [hg] at h; exact absurd h (by simp)
    | ok tag =>
      rw [hg] at h
      dsimp only at h
      cases hn : tag.getk "name" with
      | error err => rw [hn] at h; exact absurd h (by simp)
      | ok namev =>
        rw [hn] at h
        dsimp only at h
        cases hl : pyLower (if namev.truthy then namev else PyVal.str "") with
        | error err => rw [hl] at h; exact absurd h (by simp)
        | ok name =>
          rw [hl] at h
          dsimp only at h
          exact ih _ (tag_matched_fold_nodup fmap name acc hacc) h

theorem tagged_matched_subset (fmap : List (String × String)) (tags : List PyVal)
    (acc : List String) (res : List String)
    (h : tagged_matched fmap tags acc = .ok res) :
    ∀ x ∈ res, x ∈ acc ∨ x ∈ fmap.map Prod.fst := by
  induction tags generalizing acc with
  | nil =>
    unfold tagged_matched at h
    simp only [Except.ok.injEq] at h
    intro x hx
    exact Or.inl (h ▸ hx)
  | cons t tags ih =>
    unfold tagged_matched at h
    cases hg : t.getd "Tag" t with
    | error err => rw [hg] at h; exact absurd h (by simp)
    | ok tag =>
      rw [hg] at h
      dsimp only at h
      cases hn : tag.getk "name" with
      | error err => rw [hn] at h; exact absurd h (by simp)
      | ok namev =>
        rw [hn] at h
        dsimp only at h
        cases hl : pyLower (if namev.truthy then namev else PyVal.str "") with
        | error err => rw [hl] at h; exact absurd h (by simp)
        | ok name =>
          rw [hl] at h
          dsimp only at h
          intro x hx
          rcases ih _ h x hx with hh | hh
          · exact tag_matched_fold_subset fmap name acc x hh
          · exact Or.inr hh

/-- A successful per-event step yields a duplicate-free matched set drawn
from the keys of the family map. -/
theorem tagged_step_matched_props (fmap : List (String × String)) (s e : Int)
    (ev : PyVal) (ms : List String) (d : Int)
    (h : tagged_event_step fmap s e ev = .ok (some (ms, d))) :
    ms.Nodup ∧ ∀ x ∈ ms, x ∈ fmap.map Prod.fst := by
  unfold tagged_event_step at h
  cases hg : ev.getd "Event" ev with
  | error err => rw [hg] at h; exact absurd h (by simp)
  | ok event =>
    rw [hg] at h
    dsimp only at h
    cases hg2 : event.getd "Tag" (PyVal.list []) with
    | error err => rw [hg2] at h; exact absurd h (by simp)
    | ok tags0 =>
      rw [hg2] at h
      dsimp only at h
      cases hit : pyIter (if tags0.truthy then tags0 else PyVal.list []) with
      | error err => rw [hit] at h; exact absurd h (by simp)
      | ok tagItems =>
        rw [hit] at h
        dsimp only at h
        cases hm : tagged_matched fmap tagItems [] with
        | error err => rw [hm] at h; exact absurd h (by simp)
        | ok matched =>
          rw [hm] at h
          dsimp only at h
          by_cases hempty : matched = []
          · rw [if_pos hempty] at h
            exact absurd h (by simp)
          · rw [if_neg hempty] at h
            cases hr : resolve_day_fallthrough event with
            | error err => rw [hr] at h; exact absurd h (by simp)
            | ok o =>
              rw [hr] at h
              cases o with
              | none => exact absurd h (by simp)
              | some day =>
                dsimp only at h
                by_cases hrange : s ≤ day ∧ day ≤ e
                · rw [if_pos hrange] at h
                  simp only [Except.ok.injEq, Option.some.injEq, Prod.mk.injEq] at h
                  obtain ⟨hms, -⟩ := h
                  rw [← hms]
                  refine ⟨tagged_matched_nodup fmap tagItems [] matched (by simp) hm, ?_⟩
                  intro x hx
                  rcases tagged_matched_subset fmap tagItems [] matched hm x hx with hh | hh
                  · simp at hh
                  · exact hh
                · rw [if_neg hrange] at h
                  exact absurd h (by simp)

/-! ### The event loop, characterized -/

theorem tagged_loop_keys (fmap : List (String × String)) (s e : Int)
    (evs : List PyVal) (acc res : List (String × List Int) × List Int)
    (h : tagged_loop fmap s e evs acc = .ok res) :
    res.1.map Prod.fst = acc.1.map Prod.fst := by
  induction evs generalizing acc with
  | nil =>
    unfold tagged_loop at h
    simp only [Except.ok.injEq] at h
    rw [← h]
  | cons ev evs ih =>
    unfold tagged_loop at h
    cases hstep : tagged_event_step fmap s e ev with
    | error err => rw [hstep] at h; exact absurd h (by simp)
    | ok o =>
      rw [hstep] at h
      match o with
      | Option.none => exact ih _ h
      | some (ms, d) =>
        dsimp only at h
        rw [ih _ h]
        exact keys_foldl_assocAppend ms acc.1 d

theorem tagged_loop_snd (fmap : List (String × String)) (s e : Int)
    (evs : List PyVal) (acc res : List (String × List Int) × List Int)
    (h : tagged_loop fmap s e evs acc = .ok res) :
    res.2 = acc.2 ++ evs.filterMap (stepDay fmap s e) := by
  induction evs generalizing acc with
  | nil =>
    unfold tagged_loop at h
    simp only [Except.ok.injEq] at h
    rw [← h]
    simp
  | cons ev evs ih =>
    unfold tagged_loop at h
    rw [List.filterMap_cons]
    cases hstep : tagged_event_step fmap s e ev with
    | error err => rw [hstep] at h; exact absurd h (by simp)
    | ok o =>
      rw [hstep] at h
      match o with
      | Option.none =>
        have hsd : stepDay fmap s e ev = Option.none := by
          unfold stepDay
          rw [hstep]
        rw [hsd]
        exact ih _ h
      | some (ms, d) =>
        dsimp only at h
        have hsd : stepDay fmap s e ev = some d := by
          unfold stepDay
          rw [hstep]
        rw [hsd, ih _ h]
        simp

theorem tagged_loop_fst (fmap : List (String × String)) (s e : Int)
    (evs : List PyVal) (acc res : List (String × List Int) × List Int) (f : String)
    (h : tagged_loop fmap s e evs acc = .ok res) :
    alook f res.1 =
      (alook f acc.1).map (fun l => l ++ evs.filterMap (stepDayFor fmap s e f)) := by
  induction evs generalizing acc with
  | nil =>
    unfold tagged_loop at h
    simp only [Except.ok.injEq] at h
    rw [← h]
    cases alook f acc.1 <;> simp
  | cons ev evs ih =>
    unfold tagged_loop at h
    rw [List.filterMap_cons]
    cases hstep : tagged_event_step fmap s e ev with
    | error err => rw [hstep] at h; exact absurd h (by simp)
    | ok o =>
      rw [hstep] at h
      match o with
      | Option.none =>
        have hsd : stepDayFor fmap s e f ev = Option.none := by
          unfold stepDayFor
          rw [hstep]
        rw [hsd]
        exact ih _ h
      | some (ms, d) =>
        dsimp only at h
        have hnd : ms.Nodup := (tagged_step_matched_props fmap s e ev ms d hstep).1
        have hsd : stepDayFor fmap s e f ev = if f ∈ ms then some d else Option.none := by
          unfold stepDayFor
          rw [hstep]
        rw [hsd, ih _ h]
        rw [alook_foldl_assocAppend ms hnd acc.1 f d]
        by_cases hf : f ∈ ms
        · rw [if_pos hf, if_pos hf]
          cases alook f acc.1 <;> simp
        · rw [if_neg hf, if_neg hf]

/-! ### Claim C5 — inclusive multi-category matching -/

/-- C5: on a well-shaped event list (success of the extractor assumed, as it
is for every input the loop can finish on), the aggregated cross-category
list carries exactly one entry per contributing event (conjunct 1: it is the
`filterMap` of the per-event step, so an event matching several families
still contributes exactly once), the date list of each family is exactly the days
of the events whose matched set contains that family (conjunct 2 — an event
matching no family, i.e. whose step yields `Option.none`, contributes to no
family list and not to the aggregated list), and concretely an event whose
step matched the set `ms` with day `d` has `d` recorded in every family of
`ms` and present in the aggregated list (conjunct 3). -/
theorem tagged_multifamily_spec (evs : List PyVal) (s e : Int) (fams : List String)
    (hnd : fams.Nodup) (res : List (String × List Int) × List Int)
    (hok : extract_tagged_event_dates_by_family
        (PyVal.dict [("Event", PyVal.list evs)]) s e fams = .ok res) :
    res.2 = evs.filterMap (stepDay (famMap fams) s e) ∧
    (∀ f, f ∈ fams →
      alook f res.1 = some (evs.filterMap (stepDayFor (famMap fams) s e f))) ∧
    (∀ ev ms d, ev ∈ evs →
      tagged_event_step (famMap fams) s e ev = .ok (some (ms, d)) →
      d ∈ res.2 ∧ ∀ f ∈ ms, ∃ l, alook f res.1 = some l ∧ d ∈ l) := by
  have hrel : response_event_list (PyVal.dict [("Event", PyVal.list evs)]) =
      .ok (some evs) := rfl
  unfold extract_tagged_event_dates_by_family at hok
  rw [hrel] at hok
  dsimp only at hok
  have hsnd : res.2 = evs.filterMap (stepDay (famMap fams) s e) := by
    rw [tagged_loop_snd _ _ _ _ _ _ hok]
    rfl
  have hfst : ∀ f, alook f res.1 =
      (alook f (buildInit fams)).map
        (fun l => l ++ evs.filterMap (stepDayFor (famMap fams) s e f)) :=
    fun f => tagged_loop_fst _ _ _ _ _ _ f hok
  refine ⟨hsnd, ?_, ?_⟩
  · intro f hf
    rw [hfst f, alook_buildInit fams hnd f hf]
    simp
  · intro ev ms d hev hstep
    constructor
    · rw [hsnd]
      apply List.mem_filterMap.mpr
      refine ⟨ev, hev, ?_⟩
      unfold stepDay
      rw [hstep]
    · intro f hfms
      have hsub := (tagged_step_matched_props _ _ _ _ _ _ hstep).2 f hfms
      have hkeys : (famMap fams).map Prod.fst = fams := by
        unfold famMap
        rw [List.map_map]
        exact List.map_id fams
      rw [hkeys] at hsub
      refine ⟨evs.filterMap (stepDayFor (famMap fams) s e f), ?_, ?_⟩
      · rw [hfst f, alook_buildInit fams hnd f hsub]
        simp
      · apply List.mem_filterMap.mpr
        refine ⟨ev, hev, ?_⟩
        unfold stepDayFor
        rw [hstep]
        simp [hfms]

/-- One event tagged "formbook_remcosrat" matches both the "Formbook" and
the "RemcosRAT" keywords; its day (epoch 432000 = UTC day 5) lands once in
the aggregated list. -/
def c5evs : List PyVal :=
  [PyVal.dict [("Tag", PyVal.list [PyVal.dict [("name", PyVal.str "formbook_remcosrat")]]),
               ("timestamp", PyVal.int 432000)]]

theorem tagged_multifamily_spec_witness :
    (["Formbook", "RemcosRAT"] : List String).Nodup ∧
    ([5] : List Int) = c5evs.filterMap (stepDay (famMap ["Formbook", "RemcosRAT"]) 0 90) := by
  have h := tagged_multifamily_spec c5evs 0 90 ["Formbook", "RemcosRAT"] (by decide)
    ([("Formbook", [5]), ("RemcosRAT", [5])], [5]) (by rfl)
  exact ⟨by decide, h.1⟩

/-! ### Claim C10 — one key per supplied keyword, in order -/

/-- C10: whenever `extract_tagged_event_dates_by_family` returns (also on
malformed or empty responses, which return the freshly initialized dict
untouched), its per-category mapping has exactly one key per supplied
family keyword, in the supplied order; consequently every supplied keyword
is present with some (possibly empty) date list rather than being absent.
(The keyword list is duplicate-free, as the fixed
`STEALER_FAMILY_KEYWORDS` is.) -/
theorem tagged_keys_spec (events_json : PyVal) (s e : Int) (fams : List String)
    (hnd : fams.Nodup) (res : List (String × List Int) × List Int)
    (hok : extract_tagged_event_dates_by_family events_json s e fams = .ok res) :
    res.1.map Prod.fst = fams ∧ ∀ f ∈ fams, ∃ l, alook f res.1 = some l := by
  have hmain : res.1.map Prod.fst = fams := by
    unfold extract_tagged_event_dates_by_family at hok
    cases hrel : response_event_list events_json with
    | error err => rw [hrel] at hok; exact absurd hok (by simp)
    | ok o =>
      rw [hrel] at hok
      cases o with
      | none =>
        dsimp only at hok
        simp only [Except.ok.injEq] at hok
        rw [← hok]
        exact buildInit_keys fams hnd
      | some evl =>
        dsimp only at hok
        rw [tagged_loop_keys _ _ _ _ _ _ hok]
        exact buildInit_keys fams hnd
  refine ⟨hmain, ?_⟩
  intro f hf
  exact alook_isSome_of_mem_keys res.1 f (by rw [hmain]; exact hf)

theorem tagged_keys_spec_witness :
    (["A", "B"] : List String).Nodup ∧
    ([("A", ([] : List Int)), ("B", ([] : List Int))], ([] : List Int)).1.map Prod.fst =
      (["A", "B"] : List String) := by
  have h := tagged_keys_spec (PyVal.dict [("response", PyVal.int 5)]) 0 10 ["A", "B"]
    (by decide) ([("A", []), ("B", [])], []) (by rfl)
  exact ⟨by decide, h.1⟩
